import Mathlib

/-!
Verification of the Scheduler module (recurrentes.py): log-row parsing,
task reconciliation by log replay, and the forced-action daily gate.
All definitions below are shallow embeddings of the Python source;
the few collaborator operations that live outside this repository
(the CSV log store) are modelled from the specification and marked as such.
-/

/-- The double-quote character (34). -/
def dquoteC : Char := Char.ofNat 34

/-- The single-quote character (39). -/
def squoteC : Char := Char.ofNat 39

/-- The opening curly brace character (123). -/
def lbraceC : Char := Char.ofNat 123

/-- The closing curly brace character (125). -/
def rbraceC : Char := Char.ofNat 125

/-- Does the character list start with the given needle? -/
def startsWithL : List Char → List Char → Bool
  | [], _ => true
  | _ :: _, [] => false
  | n :: ns, c :: cs => n = c && startsWithL ns cs

/-- Substring search on character lists: does the haystack contain the needle? -/
def hasSubL (needle : List Char) : List Char → Bool
  | [] => needle.isEmpty
  | c :: rest => startsWithL needle (c :: rest) || hasSubL needle rest

/-- Python `needle in hay` for strings: substring containment. -/
def strContains (hay needle : String) : Bool :=
  hasSubL needle.data hay.data

/-- Python `str.isdigit` restricted to ASCII digits: non-empty and all digits. -/
def pyIsdigit (s : String) : Bool :=
  !s.data.isEmpty && s.data.all Char.isDigit

/-- Value of an all-digit character list, most significant first. -/
def digitsToNat (cs : List Char) : Nat :=
  cs.foldl (fun acc c => acc * 10 + (c.toNat - 48)) 0

/-- Python whitespace stripping from the left of a character list. -/
def dropWsL (cs : List Char) : List Char := cs.dropWhile Char.isWhitespace

/-- Python `str.strip()`: whitespace removed from both ends. -/
def pyStrip (s : String) : String :=
  String.mk (((s.data.dropWhile Char.isWhitespace).reverse.dropWhile Char.isWhitespace).reverse)

/-- Python `str.strip(c)` for a single character: that character removed from both ends. -/
def pyStripChar (s : String) (ch : Char) : String :=
  String.mk (((s.data.dropWhile (· = ch)).reverse.dropWhile (· = ch)).reverse)

/-- Python `str.upper()` (character-wise, via the character table Lean uses). -/
def pyUpper (s : String) : String :=
  String.mk (s.data.map Char.toUpper)

/-- Python `int(s)` for a plain literal: optional surrounding whitespace,
optional sign, then one or more ASCII digits. Returns `none` when `int` would raise. -/
def pyIntOpt (s : String) : Option Int :=
  let cs := (s.data.dropWhile Char.isWhitespace).reverse.dropWhile Char.isWhitespace |>.reverse
  match cs with
  | '+' :: ds => if !ds.isEmpty && ds.all Char.isDigit then some (Int.ofNat (digitsToNat ds)) else none
  | '-' :: ds => if !ds.isEmpty && ds.all Char.isDigit then some (-(Int.ofNat (digitsToNat ds))) else none
  | ds => if !ds.isEmpty && ds.all Char.isDigit then some (Int.ofNat (digitsToNat ds)) else none

/-- A Python/JSON value as it occurs in a parsed log payload:
strings, integers, booleans, `None`/`null`, lists, dicts, and
`datetime` objects (represented by their instant, in microseconds). -/
inductive Val where
  | vstr : String → Val
  | vint : Int → Val
  | vbool : Bool → Val
  | vnull : Val
  | vlist : List Val → Val
  | vdict : List (String × Val) → Val
  | vdt : Int → Val

/-- A Python dict with string keys, as an association list in insertion order. -/
abbrev Dict := List (String × Val)

mutual
/-- Python `repr` of a value (the parts this module can observe). -/
def pyRepr : Val → String
  | .vstr s => String.singleton squoteC ++ s ++ String.singleton squoteC
  | .vint n => toString n
  | .vbool b => if b then "True" else "False"
  | .vnull => "None"
  | .vdt n => toString n
  | .vlist xs => "[" ++ pyReprElems xs ++ "]"
  | .vdict d => String.singleton lbraceC ++ pyReprMembers d ++ String.singleton rbraceC

/-- `repr` of list elements, comma separated. -/
def pyReprElems : List Val → String
  | [] => ""
  | [x] => pyRepr x
  | x :: rest => pyRepr x ++ ", " ++ pyReprElems rest

/-- `repr` of dict members, comma separated. -/
def pyReprMembers : List (String × Val) → String
  | [] => ""
  | [(k, v)] => String.singleton squoteC ++ k ++ String.singleton squoteC ++ ": " ++ pyRepr v
  | (k, v) :: rest =>
      String.singleton squoteC ++ k ++ String.singleton squoteC ++ ": " ++ pyRepr v
        ++ ", " ++ pyReprMembers rest
end

/-- Python `str` of a value: the string itself for strings, `repr`-like otherwise. -/
def pyStr : Val → String
  | .vstr s => s
  | v => pyRepr v

/-- Python truthiness of a value. -/
def pyTruthy : Val → Bool
  | .vstr s => !s.data.isEmpty
  | .vint n => n ≠ 0
  | .vbool b => b
  | .vnull => false
  | .vlist xs => !xs.isEmpty
  | .vdict d => !d.isEmpty
  | .vdt _ => true

/-- `d.get(k)`: the value bound to `k` (first binding), or `none` when absent. -/
def dget : Dict → String → Option Val
  | [], _ => none
  | (k', v') :: d, k => if k' = k then some v' else dget d k

/-- The last binding of `k` in the association list (used to relate
sequential dict assignment to lookup). -/
def dgetLast : Dict → String → Option Val
  | [], _ => none
  | (k', v') :: d, k =>
      match dgetLast d k with
      | some v => some v
      | none => if k' = k then some v' else none

/-- Lookup that treats a `None` binding like an absent key. -/
def dgetNN (d : Dict) (k : String) : Option Val :=
  match dget d k with
  | some v => match v with
    | .vnull => none
    | v => some v
  | none => none

/-- Python dict assignment `d[k] = v`: replace the binding in place, or append. -/
def dictInsert : Dict → String → Val → Dict
  | [], k, v => [(k, v)]
  | (k', v') :: d, k, v => if k' = k then (k, v) :: d else (k', v') :: dictInsert d k v

/-- Python `base.update(upd)`: assign every binding of `upd` into `base` in order. -/
def dictUpdate (base upd : Dict) : Dict :=
  upd.foldl (fun b kv => dictInsert b kv.1 kv.2) base

/-- Is the value `None`? -/
def Val.isNull : Val → Bool
  | .vnull => true
  | _ => false

/-- `base.update({k: v for k, v in upd.items() if v is not None})`:
the non-`None` bindings of `upd` overwrite those of `base`. -/
def dictUpdateNonNull (base upd : Dict) : Dict :=
  dictUpdate base (upd.filter (fun kv => !kv.2.isNull))

/-- Are the keys of the association list pairwise distinct
(always true of a list denoting a Python dict)? -/
def keysNodup : Dict → Bool
  | [] => true
  | (k, _) :: d => !d.any (fun kv => kv.1 == k) && keysNodup d

/-- `Mode` enum (AUTO | USER). -/
inductive Mode where
  | AUTO | USER
deriving DecidableEq, Repr

/-- `Priority` enum (LOW | MED | HIGH). -/
inductive Priority where
  | LOW | MED | HIGH
deriving DecidableEq, Repr

/-- `Status` enum (PENDING | RUNNING | DONE | SKIPPED | FAILED). -/
inductive Status where
  | PENDING | RUNNING | DONE | SKIPPED | FAILED
deriving DecidableEq, Repr

/-- `Kind` enum (TASK | RECURRENT). -/
inductive Kind where
  | TASK | RECURRENT
deriving DecidableEq, Repr

/-- `Frequency` enum (DAILY | WEEKLY | MONTHLY | EVERY_N_DAYS). -/
inductive Frequency where
  | DAILY | WEEKLY | MONTHLY | EVERY_N_DAYS
deriving DecidableEq, Repr

/-- `Mode(s)`: value lookup, case-sensitive, failing on no match. -/
def modeOfString : String → Option Mode
  | "AUTO" => some .AUTO
  | "USER" => some .USER
  | _ => none

/-- `Priority(s)`: value lookup. -/
def priorityOfString : String → Option Priority
  | "LOW" => some .LOW
  | "MED" => some .MED
  | "HIGH" => some .HIGH
  | _ => none

/-- `Status(s)`: value lookup. -/
def statusOfString : String → Option Status
  | "PENDING" => some .PENDING
  | "RUNNING" => some .RUNNING
  | "DONE" => some .DONE
  | "SKIPPED" => some .SKIPPED
  | "FAILED" => some .FAILED
  | _ => none

/-- `Kind(s)`: value lookup. -/
def kindOfString : String → Option Kind
  | "TASK" => some .TASK
  | "RECURRENT" => some .RECURRENT
  | _ => none

/-- `Frequency(s)`: value lookup. -/
def frequencyOfString : String → Option Frequency
  | "DAILY" => some .DAILY
  | "WEEKLY" => some .WEEKLY
  | "MONTHLY" => some .MONTHLY
  | "EVERY_N_DAYS" => some .EVERY_N_DAYS
  | _ => none

/-- A dataclass field value before `__post_init__` validation: either already
a member of the enum `ε`, or some other Python value. -/
inductive PyIn (ε : Type) where
  | isEnum : ε → PyIn ε
  | raw : Val → PyIn ε

/-- `Task.__post_init__` on `mode`: keep an enum member; otherwise try
`Mode(str(x).upper())` and fall back to `Mode.USER`. -/
def coerceMode : PyIn Mode → Mode
  | .isEnum m => m
  | .raw v => (modeOfString (pyUpper (pyStr v))).getD .USER

/-- `Task.__post_init__` on `priority`: fall back to `Priority.MED`. -/
def coercePriority : PyIn Priority → Priority
  | .isEnum p => p
  | .raw v => (priorityOfString (pyUpper (pyStr v))).getD .MED

/-- `Task.__post_init__` on `status`: fall back to `Status.PENDING`. -/
def coerceStatus : PyIn Status → Status
  | .isEnum s => s
  | .raw v => (statusOfString (pyUpper (pyStr v))).getD .PENDING

/-- `Registro.__post_init__` on `kind`: fall back to `Kind.TASK`. -/
def coerceKind : PyIn Kind → Kind
  | .isEnum k => k
  | .raw v => (kindOfString (pyUpper (pyStr v))).getD .TASK

/-- `Recurrent.__post_init__` on `frequency`: fall back to `Frequency.DAILY`. -/
def coerceFrequency : PyIn Frequency → Frequency
  | .isEnum f => f
  | .raw v => (frequencyOfString (pyUpper (pyStr v))).getD .DAILY

/-- `Recurrent.__post_init__` on `interval`: `if self.interval < 1: self.interval = 1`. -/
def recurrentFixInterval (i : Int) : Int :=
  if i < 1 then 1 else i

/-- The element filter of `Recurrent.__post_init__` on `byday`:
`isinstance(d, int) and 0 <= d <= 6` (Python `bool` is an `int` whose
values `False`/`True` are 0/1, both in range). -/
def bydayKeep : Val → Bool
  | .vint n => 0 ≤ n && n ≤ 6
  | .vbool _ => true
  | _ => false

/-- `Recurrent.__post_init__` on `byday`: drop out-of-range entries when present. -/
def bydayClean : Option (List Val) → Option (List Val)
  | none => none
  | some l => some (l.filter bydayKeep)

/-- Exactly `n` ASCII digits from the front; their value and the rest. -/
def takeDigits : Nat → List Char → Option (Nat × List Char)
  | 0, cs => some (0, cs)
  | _ + 1, [] => none
  | n + 1, c :: cs =>
      if c.isDigit then
        (takeDigits n cs).bind (fun p =>
          some ((c.toNat - 48) * 10 ^ n + p.1, p.2))
      else none

/-- Is the (proleptic Gregorian) year a leap year? -/
def isLeap (y : Nat) : Bool :=
  (y % 4 = 0 && y % 100 ≠ 0) || y % 400 = 0

/-- Number of days in a month. -/
def daysInMonth (y m : Nat) : Nat :=
  if m = 2 then (if isLeap y then 29 else 28)
  else if m = 4 || m = 6 || m = 9 || m = 11 then 30
  else 31

/-- Days of the year strictly before month `m`. -/
def daysBeforeMonth (y m : Nat) : Nat :=
  (List.range m).foldl (fun acc i => if 1 ≤ i then acc + daysInMonth y i else acc) 0

/-- Proleptic Gregorian ordinal of a date (1-01-01 is day 1). -/
def rataDie (y m d : Nat) : Nat :=
  365 * (y - 1) + (y - 1) / 4 - (y - 1) / 100 + (y - 1) / 400 + daysBeforeMonth y m + d

/-- Time-of-day part `HH[:MM[:SS[.fff|.ffffff]]]` of `datetime.fromisoformat`.
Returns microseconds since midnight and the remaining characters. -/
def parseIsoTime (cs : List Char) : Option (Nat × List Char) :=
  match takeDigits 2 cs with
  | none => none
  | some (h, r1) =>
    if h ≥ 24 then none else
    match r1 with
    | ':' :: r2 =>
      match takeDigits 2 r2 with
      | none => none
      | some (mi, r3) =>
        if mi ≥ 60 then none else
        match r3 with
        | ':' :: r4 =>
          match takeDigits 2 r4 with
          | none => none
          | some (s, r5) =>
            if s ≥ 60 then none else
            match r5 with
            | '.' :: r6 =>
              match takeDigits 6 r6 with
              | some (us, r7) => some ((((h * 60 + mi) * 60 + s) * 1000000 + us), r7)
              | none =>
                match takeDigits 3 r6 with
                | some (ms, r7) => some ((((h * 60 + mi) * 60 + s) * 1000000 + ms * 1000), r7)
                | none => none
            | _ => some ((((h * 60 + mi) * 60 + s) * 1000000), r5)
        | _ => some ((((h * 60 + mi) * 60) * 1000000), r3)
    | _ => some ((h * 60 * 60 * 1000000), r1)

/-- UTC-offset part `±HH:MM` of `datetime.fromisoformat`: signed minutes. -/
def parseIsoOffset (cs : List Char) : Option Int :=
  match cs with
  | sign :: rest =>
    if sign = '+' || sign = '-' then
      match takeDigits 2 rest with
      | none => none
      | some (oh, r1) =>
        if oh ≥ 24 then none else
        match r1 with
        | ':' :: r2 =>
          match takeDigits 2 r2 with
          | some (om, []) =>
            if om ≥ 60 then none
            else some (if sign = '-' then -(Int.ofNat (oh * 60 + om)) else Int.ofNat (oh * 60 + om))
          | _ => none
        | _ => none
    else none
  | [] => none

/-- `datetime.fromisoformat` (the `YYYY-MM-DD[*HH[:MM[:SS[.fff|.ffffff]]][±HH:MM]]`
core accepted by every supported Python version): wall-clock microseconds since
the proleptic epoch, and the explicit UTC offset in minutes, if any. -/
def fromisoformatRaw (s : String) : Option (Int × Option Int) :=
  match takeDigits 4 s.data with
  | none => none
  | some (y, r1) =>
    if y = 0 then none else
    match r1 with
    | '-' :: r2 =>
      match takeDigits 2 r2 with
      | none => none
      | some (m, r3) =>
        if m = 0 || m > 12 then none else
        match r3 with
        | '-' :: r4 =>
          match takeDigits 2 r4 with
          | none => none
          | some (d, r5) =>
            if d = 0 || d > daysInMonth y m then none else
            let dayMicro : Int := Int.ofNat (rataDie y m d * 86400000000)
            match r5 with
            | [] => some (dayMicro, none)
            | _ :: r6 =>
              match parseIsoTime r6 with
              | none => none
              | some (tod, r7) =>
                match r7 with
                | [] => some (dayMicro + Int.ofNat tod, none)
                | _ =>
                  match parseIsoOffset r7 with
                  | some off => some (dayMicro + Int.ofNat tod, some off)
                  | none => none
        | _ => none
    | _ => none

/-- The fixed local zone `America/Mexico_City` as a UTC offset in minutes
(constant since 2022; `MX_TZ`). -/
def mxOffsetMin : Int := -360

/-- `ensure_tz` composed with instant conversion: a naive wall-clock time gets
the fixed local zone attached; an aware one keeps its offset. The result is the
comparable instant (microseconds, offset subtracted). -/
def ensureTzInstant (p : Int × Option Int) : Int :=
  p.1 - (p.2.getD mxOffsetMin) * 60000000

/-- `ensure_tz(datetime.fromisoformat(s))` as a total instant parse. -/
def fromisoTz (s : String) : Option Int :=
  (fromisoformatRaw s).map ensureTzInstant

/-- JSON string escaping as `json.dumps` performs it (quote, backslash,
and the control characters this module can produce). -/
def jsonEscape (s : String) : String :=
  String.mk (s.data.foldr (fun c acc =>
    if c = dquoteC then '\\' :: dquoteC :: acc
    else if c = '\\' then '\\' :: '\\' :: acc
    else if c = '\n' then '\\' :: 'n' :: acc
    else if c = '\t' then '\\' :: 't' :: acc
    else if c = '\r' then '\\' :: 'r' :: acc
    else c :: acc) [])

mutual
/-- `json.dumps(v, ensure_ascii=False)` with the default separators. -/
def jsonDumps : Val → String
  | .vstr s => String.singleton dquoteC ++ jsonEscape s ++ String.singleton dquoteC
  | .vint n => toString n
  | .vbool b => if b then "true" else "false"
  | .vnull => "null"
  | .vdt n => toString n
  | .vlist xs => "[" ++ jsonDumpsElems xs ++ "]"
  | .vdict d => String.singleton lbraceC ++ jsonDumpsMembers d ++ String.singleton rbraceC

/-- Array elements, separated by `", "`. -/
def jsonDumpsElems : List Val → String
  | [] => ""
  | [x] => jsonDumps x
  | x :: rest => jsonDumps x ++ ", " ++ jsonDumpsElems rest

/-- Object members `"k": v`, separated by `", "`. -/
def jsonDumpsMembers : List (String × Val) → String
  | [] => ""
  | [(k, v)] =>
      String.singleton dquoteC ++ jsonEscape k ++ String.singleton dquoteC ++ ": " ++ jsonDumps v
  | (k, v) :: rest =>
      String.singleton dquoteC ++ jsonEscape k ++ String.singleton dquoteC ++ ": " ++ jsonDumps v
        ++ ", " ++ jsonDumpsMembers rest
end

/-- A JSON string body after the opening quote: unescape until the closing quote. -/
def jpString : List Char → Option (String × List Char)
  | [] => none
  | c :: cs =>
    if c = dquoteC then some ("", cs)
    else if c = '\\' then
      match cs with
      | [] => none
      | e :: cs' =>
        let dec : Option Char :=
          if e = dquoteC then some dquoteC
          else if e = '\\' then some '\\'
          else if e = '/' then some '/'
          else if e = 'n' then some '\n'
          else if e = 't' then some '\t'
          else if e = 'r' then some '\r'
          else none
        match dec with
        | none => none
        | some d => (jpString cs').map (fun p => (String.singleton d ++ p.1, p.2))
    else (jpString cs).map (fun p => (String.singleton c ++ p.1, p.2))

/-- A JSON integer literal (this model rejects fractions and exponents,
which never occur in the payloads this module writes). -/
def jpNumber (cs : List Char) : Option (Val × List Char) :=
  let (sign, cs') := match cs with
    | '-' :: rest => (true, rest)
    | rest => (false, rest)
  let ds := cs'.takeWhile Char.isDigit
  let rest := cs'.dropWhile Char.isDigit
  if ds.isEmpty then none
  else match rest with
    | '.' :: _ => none
    | 'e' :: _ => none
    | 'E' :: _ => none
    | _ =>
      let n : Int := Int.ofNat (digitsToNat ds)
      some (.vint (if sign then -n else n), rest)

mutual
/-- The JSON value grammar of `json.loads`, with recursion fuel. -/
def jparse : Nat → List Char → Option (Val × List Char)
  | 0, _ => none
  | f + 1, cs0 =>
    let cs := dropWsL cs0
    match cs with
    | [] => none
    | c :: rest =>
      if c = lbraceC then
        match dropWsL rest with
        | c2 :: r2 =>
          if c2 = rbraceC then some (.vdict [], r2)
          else jpMembers f (c2 :: r2) []
        | [] => none
      else if c = '[' then
        match dropWsL rest with
        | ']' :: r2 => some (.vlist [], r2)
        | r2 => jpElems f r2 []
      else if c = dquoteC then
        (jpString rest).map (fun p => (.vstr p.1, p.2))
      else if c = 't' then
        match cs with
        | 't' :: 'r' :: 'u' :: 'e' :: r => some (.vbool true, r)
        | _ => none
      else if c = 'f' then
        match cs with
        | 'f' :: 'a' :: 'l' :: 's' :: 'e' :: r => some (.vbool false, r)
        | _ => none
      else if c = 'n' then
        match cs with
        | 'n' :: 'u' :: 'l' :: 'l' :: r => some (.vnull, r)
        | _ => none
      else jpNumber cs

/-- Object members after the opening brace (duplicate keys: the last wins,
as in `json.loads`). -/
def jpMembers : Nat → List Char → Dict → Option (Val × List Char)
  | 0, _, _ => none
  | f + 1, cs, acc =>
    match dropWsL cs with
    | c :: r1 =>
      if c = dquoteC then
        match jpString r1 with
        | none => none
        | some (k, r2) =>
          match dropWsL r2 with
          | ':' :: r3 =>
            match jparse f r3 with
            | none => none
            | some (v, r4) =>
              let acc' := dictInsert acc k v
              match dropWsL r4 with
              | ',' :: r5 => jpMembers f r5 acc'
              | c5 :: r5 => if c5 = rbraceC then some (.vdict acc', r5) else none
              | [] => none
          | _ => none
      else none
    | [] => none

/-- Array elements after the opening bracket. -/
def jpElems : Nat → List Char → List Val → Option (Val × List Char)
  | 0, _, _ => none
  | f + 1, cs, acc =>
    match jparse f cs with
    | none => none
    | some (v, r1) =>
      let acc' := acc ++ [v]
      match dropWsL r1 with
      | ',' :: r2 => jpElems f r2 acc'
      | ']' :: r2 => some (.vlist acc', r2)
      | _ => none
end

/-- `json.loads`: parse one value and require only whitespace to remain. -/
def jsonLoads (s : String) : Option Val :=
  match jparse (s.length + 2) s.data with
  | some (v, rest) => if (dropWsL rest).isEmpty then some v else none
  | none => none

/-- `s.replace("'", '"')`. -/
def replaceSQ (s : String) : String :=
  String.mk (s.data.map (fun c => if c = squoteC then dquoteC else c))

/-- `_coerce_dt(v)`: a datetime passes through (`ensure_tz` attaches the fixed
zone, already folded into the instant); a non-blank string is parsed as
ISO-8601; anything else, or a parse failure, yields `None`. -/
def coerceDt : Val → Option Int
  | .vdt t => some t
  | .vstr s => if (pyStrip s).isEmpty then none else fromisoTz s
  | _ => none

/-- Splitting on a separator character, cleaning each part as
`p.strip().strip('"').strip("'")`, and dropping empty parts. -/
def splitCommaClean (s : String) : List String :=
  ((s.data.splitOn ',').map (fun p =>
      pyStripChar (pyStripChar (pyStrip (String.mk p)) dquoteC) squoteC)).filter
    (fun p => !p.isEmpty)

/-- `_coerce_list(v)` with recursion fuel (the string branch re-enters through
`json.loads`, on a strictly shorter string, so the fuel never runs out on
inputs reachable from the parser). -/
def coerceListF : Nat → Val → List String
  | 0, _ => []
  | _ + 1, .vnull => []
  | _ + 1, .vlist xs =>
      (xs.filter (fun x => !(pyStrip (pyStr x)).isEmpty)).map (fun x =>
        pyStripChar (pyStripChar (pyStrip (pyStr x)) dquoteC) squoteC)
  | f + 1, .vstr s0 =>
      let s := pyStrip s0
      if (s.startsWith "[" && s.endsWith "]") ||
          strContains s (String.singleton dquoteC ++ "," ++ String.singleton dquoteC) then
        match jsonLoads (replaceSQ s) with
        | some arr => coerceListF f arr
        | none => splitCommaClean s
      else splitCommaClean s
  | _ + 1, v => [pyStr v]

/-- Fuel bound for `_coerce_list`: one re-entry per quote pair removed. -/
def coerceListFuel : Val → Nat
  | .vstr s => s.length + 2
  | _ => 2

/-- `_coerce_list(v)` where `v` came from `d.get(...)` (so `none` is Python `None`). -/
def coerceList : Option Val → List String
  | none => []
  | some v => coerceListF (coerceListFuel v) v

/-- Is the character a Python regex word character (`\w`, ASCII)? -/
def isWordChar (c : Char) : Bool :=
  c.isAlphanum || c = '_'

/-- Consume an exact prefix, returning the remainder. -/
def dropPre : List Char → List Char → Option (List Char)
  | [], cs => some cs
  | _ :: _, [] => none
  | k :: ks, c :: cs => if c = k then dropPre ks cs else none

/-- Collect characters up to (and consuming) the first one satisfying `p`. -/
def takeUntil (p : Char → Bool) : List Char → Option (List Char × List Char)
  | [] => none
  | c :: cs =>
      if p c then some ([], cs)
      else (takeUntil p cs).map (fun q => (c :: q.1, q.2))

/-- One attempt of the pattern `\bkey\b\s*:\s*"([^"]+)"` at the current
position (`prevW`: whether the previous character is a word character). -/
def matchQuotedHere (key : List Char) (prevW : Bool) (cs : List Char) : Option String :=
  if prevW then none else
  match dropPre key cs with
  | none => none
  | some rest =>
    if (match rest.head? with | some c => isWordChar c | none => false) then none
    else
      match dropWsL rest with
      | ':' :: r2 =>
        match dropWsL r2 with
        | c3 :: r3 =>
          if c3 = dquoteC then
            match takeUntil (fun x => x = dquoteC) r3 with
            | some (content, _) => if content.isEmpty then none else some (String.mk content)
            | none => none
          else none
        | [] => none
      | _ => none

/-- One attempt of the pattern `\bkey\b\s*:\s*([^\s,\}]+)` at the current position. -/
def matchBareHere (key : List Char) (prevW : Bool) (cs : List Char) : Option String :=
  if prevW then none else
  match dropPre key cs with
  | none => none
  | some rest =>
    if (match rest.head? with | some c => isWordChar c | none => false) then none
    else
      match dropWsL rest with
      | ':' :: r2 =>
        let r3 := dropWsL r2
        let tok := r3.takeWhile (fun x => !(x.isWhitespace || x = ',' || x = rbraceC))
        if tok.isEmpty then none else some (String.mk tok)
      | _ => none

/-- `re.search` of the quoted pattern: leftmost match wins. -/
def searchQuoted (key : List Char) : Bool → List Char → Option String
  | prevW, [] => matchQuotedHere key prevW []
  | prevW, c :: rest =>
    match matchQuotedHere key prevW (c :: rest) with
    | some s => some s
    | none => searchQuoted key (isWordChar c) rest

/-- `re.search` of the bare pattern: leftmost match wins. -/
def searchBare (key : List Char) : Bool → List Char → Option String
  | prevW, [] => matchBareHere key prevW []
  | prevW, c :: rest =>
    match matchBareHere key prevW (c :: rest) with
    | some s => some s
    | none => searchBare key (isWordChar c) rest

/-- `_from_raw.grab_str(key)`: quoted pattern first, bare pattern second,
the captured group stripped. -/
def grabStr (text : List Char) (key : String) : Option String :=
  match searchQuoted key.data false text with
  | some s => some (pyStrip s)
  | none =>
    match searchBare key.data false text with
    | some s => some (pyStrip s)
    | none => none

/-- `_from_raw.grab_int(key)`: `grab_str` then `int(...)`, `None` on failure. -/
def grabInt (text : List Char) (key : String) : Option Int :=
  match grabStr text key with
  | none => none
  | some s => pyIntOpt s

/-- One attempt of `labels\s*:\s*\[([^\]]+)\]` (note: no word boundary). -/
def matchLabelsHere (cs : List Char) : Option (List Char) :=
  match dropPre "labels".data cs with
  | none => none
  | some rest =>
    match dropWsL rest with
    | ':' :: r2 =>
      match dropWsL r2 with
      | '[' :: r3 =>
        match takeUntil (fun x => x = ']') r3 with
        | some (content, _) => if content.isEmpty then none else some content
        | none => none
      | _ => none
    | _ => none

/-- `re.search` of the labels pattern. -/
def searchLabels : List Char → Option (List Char)
  | [] => matchLabelsHere []
  | c :: rest =>
    match matchLabelsHere (c :: rest) with
    | some s => some s
    | none => searchLabels rest

/-- `_from_raw(raw_tokens)`: recover key/value pairs from a flattened payload
by scanning `" ".join(str(t) for t in raw_tokens)`. -/
def fromRaw (raws : List Val) : Dict :=
  if raws.isEmpty then [] else
  let text := (String.intercalate " " (raws.map pyStr)).data
  let d1 := ["title", "mode", "due", "priority", "status", "source", "project_key"].foldl
    (fun acc k => match grabStr text k with
      | some v => dictInsert acc k (.vstr v)
      | none => acc) []
  let d2 := ["retries", "max_retries"].foldl
    (fun acc k => match grabInt text k with
      | some n => dictInsert acc k (.vint n)
      | none => acc) d1
  match searchLabels text with
  | some inside =>
      let labels := ((inside.splitOn ',').map (fun p =>
          pyStripChar (pyStripChar (pyStrip (String.mk p)) dquoteC) squoteC)).filter
        (fun p => !p.isEmpty)
      dictInsert d2 "labels" (.vlist (labels.map .vstr))
  | none => d2

/-- `_normalize_data(d)`: non-dicts become `{}`; a `raw` token-bag triggers
secondary recovery merged over the original; `labels` and `due` are coerced. -/
def normalizeData : Val → Dict
  | .vdict d =>
    let d := match dget d "raw" with
      | some (.vlist raws) => dictUpdate d (fromRaw raws)
      | _ => d
    let d := if (dget d "labels").isSome then
        dictInsert d "labels" (.vlist ((coerceList (dget d "labels")).map .vstr))
      else d
    let d := if (dget d "due").isSome then
        dictInsert d "due" (match coerceDt ((dget d "due").getD .vnull) with
          | some t => .vdt t
          | none => .vnull)
      else d
    d
  | _ => []

/-- `Registro`: one parsed log row (`when` is the comparable instant after
`ensure_tz`). -/
structure Registro where
  kind : Kind
  event : String
  task_id : String
  when : Int
  message : String
  data : Val
  id : Option Nat

/-- One iteration of the `_searchRegistries` parse loop: a row either becomes a
`Registro` or, when any step raises (missing columns, bad kind, bad timestamp),
is skipped. `int(row[0])` applies only when `row[0].isdigit()`. -/
def parseRow (row : List String) : Option Registro :=
  match row with
  | c0 :: c1 :: c2 :: c3 :: c4 :: c5 :: rest =>
    let reg_id := if pyIsdigit c0 then some (digitsToNat c0.data) else none
    match kindOfString c1 with
    | none => none
    | some kind =>
      match fromisoTz c4 with
      | none => none
      | some whenv =>
        let data_str := String.intercalate " " rest
        let data := match jsonLoads (replaceSQ data_str) with
          | some v => v
          | none => Val.vdict [("raw", .vlist (rest.map .vstr))]
        some { kind := kind, event := c2, task_id := c3, when := whenv,
               message := c5, data := data, id := reg_id }
  | _ => none

/-- The whole parse loop of `_searchRegistries` over a batch of raw rows. -/
def parseRegistries (rows : List (List String)) : List Registro :=
  rows.filterMap parseRow

/-- Modelled from the spec: `CsvManager.searchRows` (the store lives outside
this repository). Per §6, `search(query)` returns every row in which the query
occurs as a substring of any field. -/
def searchRows (log : List (List String)) (query : String) : List (List String) :=
  log.filter (fun row => row.any (fun f => strContains f query))

/-- `_searchRegistries(field)`: search the store, then parse each row. -/
def searchRegistries (log : List (List String)) (field : String) : List Registro :=
  parseRegistries (searchRows log field)

/-- The per-task accumulator of `_getTasks`. -/
structure Agg where
  first_when : Int
  last_when : Int
  data : Dict
  message : String
  kind : Kind
  last_event : String

/-- The effective payload of one event inside the fold:
`_normalize_data(r.data or {})`. -/
def effData (r : Registro) : Dict :=
  normalizeData (if pyTruthy r.data then r.data else .vdict [])

/-- First sight of a task id: the accumulator seeded from the event
(`ensure_tz` is the identity on instants). -/
def initAgg (r : Registro) : Agg :=
  { first_when := r.when, last_when := r.when, data := effData r,
    message := r.message, kind := r.kind, last_event := r.event }

/-- A later event for a known id: last timestamp, last-non-`None`-value-wins
payload merge, last non-empty message, most recent event name. -/
def updAgg (a : Agg) (r : Registro) : Agg :=
  { a with last_when := r.when,
           data := dictUpdateNonNull a.data (effData r),
           message := if r.message.data.isEmpty then a.message else r.message,
           last_event := r.event }

/-- Lookup in the aggregation dict (`tid in agg` / `agg[tid]`). -/
def aggFind : List (String × Agg) → String → Option Agg
  | [], _ => none
  | (t, a) :: rest, tid => if t = tid then some a else aggFind rest tid

/-- In-place replacement of the binding of `tid`. -/
def replaceAgg : List (String × Agg) → String → Agg → List (String × Agg)
  | [], _, _ => []
  | (t, a) :: rest, tid, a' =>
      if t = tid then (t, a') :: rest else (t, a) :: replaceAgg rest tid a'

/-- One iteration of the aggregation loop of `_getTasks`. -/
def foldStep (agg : List (String × Agg)) (r : Registro) : List (String × Agg) :=
  match aggFind agg r.task_id with
  | none => agg ++ [(r.task_id, initAgg r)]
  | some a => replaceAgg agg r.task_id (updAgg a r)

/-- Stable insertion into a list already sorted by `when`. -/
def insByWhen (r : Registro) : List Registro → List Registro
  | [] => [r]
  | y :: ys => if r.when ≤ y.when then r :: y :: ys else y :: insByWhen r ys

/-- `sorted(registries, key=lambda r: r.when)`: a stable sort by timestamp
(any stable sort computes the same list as Python's). -/
def sortByWhen : List Registro → List Registro
  | [] => []
  | r :: rest => insByWhen r (sortByWhen rest)

/-- The aggregation phase of `_getTasks`: sort by time, then fold. -/
def reconcile (registries : List Registro) : List (String × Agg) :=
  (sortByWhen registries).foldl foldStep []

/-- The `Task` snapshot materialized by `_getTasks` (fields the module
populates; `title` and `source` keep their dynamic Python type).
Named `PyTask` because `Task` is taken in Lean. -/
structure PyTask where
  title : Val
  mode : Mode
  due : Option Int
  priority : Priority
  status : Status
  id : String
  source : Val
  labels : List String
  raw_line : Option Val
  project_key : Option Val
  retries : Int
  max_retries : Int
  created_at : Int
  updated_at : Int

/-- Python `x or y` on values. -/
def pyOr (x y : Val) : Val :=
  if pyTruthy x then x else y

/-- `int(v) if isinstance(v, (int, str)) and str(v).isdigit() else 0`
(Python `bool` is an `int`). -/
def retriesOf (v : Val) : Int :=
  let isIntOrStr : Bool := match v with
    | .vint _ => true
    | .vbool _ => true
    | .vstr _ => true
    | _ => false
  if isIntOrStr && pyIsdigit (pyStr v) then Int.ofNat (digitsToNat (pyStr v).data) else 0

/-- Materialization of one `Task` from the accumulator of `_getTasks`
(including the enum coercions that `Task.__post_init__` applies). -/
def materializeTask (tid : String) (a : Agg) : PyTask :=
  let d := a.data
  let title := pyOr ((dget d "title").getD .vnull) (pyOr (.vstr a.message) (.vstr tid))
  let mode := match dget d "mode" with
    | none => coerceMode (.isEnum .USER)
    | some v => coerceMode (.raw v)
  let due := match dget d "due" with
    | some (.vdt t) => some t
    | _ => none
  let priority := match dget d "priority" with
    | none => coercePriority (.isEnum .MED)
    | some v => coercePriority (.raw v)
  let status := match dget d "status" with
    | none => coerceStatus (.isEnum .PENDING)
    | some v => coerceStatus (.raw v)
  let labels := coerceList (dget d "labels")
  let source := (dget d "source").getD (.vstr "activityLog")
  let project_key := dget d "project_key"
  let retries := retriesOf (pyOr ((dget d "retries").getD (.vint 0)) (.vint 0))
  let max_retries := retriesOf (pyOr ((dget d "max_retries").getD (.vint 0)) (.vint 0))
  { title := title, mode := mode, due := due, priority := priority,
    status := status, id := tid, source := source, labels := labels,
    raw_line := dget d "raw_line", project_key := project_key,
    retries := retries, max_retries := max_retries,
    created_at := a.first_when, updated_at := a.last_when }

/-- `_getTasks`: aggregate, then materialize one `Task` per id. -/
def getTasks (registries : List Registro) : List PyTask :=
  (reconcile registries).map (fun p => materializeTask p.1 p.2)

/-- A Python exception as the handler observes it: `type(e).__name__` and `str(e)`. -/
structure PyExc where
  exType : String
  exMsg : String

/-- The observable state threaded through `Scheduler._routine`: the activity
log (rows, most recent first), how many times the forced action's function was
invoked, the local `flag`, the messages sent to each logger channel, and the
names the routine searched the log for. -/
structure RoutineState where
  log : List (List String)
  execCount : Nat
  flag : Bool
  errors : List String
  successes : List String
  infos : List String
  searched : List String

/-- The `forced_tasks` catalog at module level. The `funcion` member of the
first entry is the external `rapidaUmigus` callable and is elided from the
data model; the second entry is the literal string `"ñu"`. -/
def forced_tasks : List (String × Val) :=
  [("publicacionFbUmigus",
      .vdict [("mode", .vstr "AUTO"), ("due", .vstr "DAILY"), ("priority", .vstr "MED"),
              ("labels", .vlist [.vstr "forced", .vstr "umigus"]),
              ("source", .vstr "scheduler:forced")]),
   ("publicacionFbGenesys", .vstr "ñu")]

/-- The tuple `forced_names` hardcoded inside `Scheduler._routine`. -/
def forcedNames : List String := ["publicacionFbUmigus"]

/-- The payload `data` built by `_routine._accion` before appending `DONE`. -/
def accionDict (name : String) : Dict :=
  [("title", .vstr name), ("mode", .vstr "AUTO"), ("due", .vstr "DAILY"),
   ("priority", .vstr "MED"), ("status", .vstr "DONE"),
   ("labels", .vlist [.vstr "forced", .vstr "umigus"]),
   ("source", .vstr "scheduler:forced")]

/-- The row tuple `_accion` hands to `activityLog.addTopRow`: empty id, kind
and event values, the generated task id, `when.isoformat()`, the message, and
the payload serialized with `json.dumps(..., ensure_ascii=False)`. -/
def accionRow (tid nowIso : String) (data : Dict) : List String :=
  ["", "TASK", "DONE", tid, nowIso, "DONE", jsonDumps (.vdict data)]

/-- The message of `mlog.error` in `_accion`'s exception handler:
`f"Error ejecutando tarea forzada '{name}': {type(e).__name__}: {e}"`. -/
def accionErrMsg (name : String) (e : PyExc) : String :=
  "Error ejecutando tarea forzada " ++ String.singleton squoteC ++ name
    ++ String.singleton squoteC ++ ": " ++ e.exType ++ ": " ++ e.exMsg

/-- `_routine._accion()`: run `rapidaUmigus("")` (its outcome is the
parameter `fnRes`); on success build the `DONE` `Registro` and prepend its row
to the store (`addTopRow`, most-recent-first per the spec), logging success;
any exception is caught and logged with the action name and exception type.
`tid` is the `gen_id("tsk")` result and `nowIso` the `now_mx().isoformat()`
value of this call. -/
def accion (st : RoutineState) (name : String) (fnRes : Except PyExc String)
    (tid nowIso : String) : RoutineState :=
  match fnRes with
  | .ok _ =>
      { st with
        log := accionRow tid nowIso (accionDict name) :: st.log,
        execCount := st.execCount + 1,
        successes := "Propuesta de publicación Umigus ejecutada y registrada como DONE."
          :: st.successes }
  | .error e =>
      { st with
        execCount := st.execCount + 1,
        errors := accionErrMsg name e :: st.errors }

/-- `Scheduler._routine` (the forced-action gate, lines 577-594): for each
hardcoded name, search the log; an empty result runs `_accion()` inside the
loop; otherwise any returned row whose timestamp field contains today's date
sets `flag`. After the loop, `_accion()` runs once more when `flag` is still
false, else the skip notice is logged. `today` is
`now_mx().date().isoformat()`; `genId`/`fnRes` supply the fresh id and the
action outcome of the n-th execution attempt. -/
def routine (log0 : List (List String)) (today nowIso : String)
    (genId : Nat → String) (fnRes : Nat → Except PyExc String) : RoutineState :=
  let st0 : RoutineState :=
    { log := log0, execCount := 0, flag := false,
      errors := [], successes := [], infos := [], searched := [] }
  let st1 := forcedNames.foldl (fun st name =>
    let existing := searchRows st.log name
    let st := { st with searched := st.searched ++ [name] }
    if existing.length = 0 then
      accion st name (fnRes st.execCount) (genId st.execCount) nowIso
    else
      { st with flag := st.flag || existing.any (fun r => strContains (r.getD 4 "") today) }) st0
  if st1.flag = false then
    accion st1 "publicacionFbUmigus" (fnRes st1.execCount) (genId st1.execCount) nowIso
  else
    { st1 with infos := "- [x] Publicación FB Umigus ya realizada. Tarea ignorada" :: st1.infos }

/-- One step of the per-id aggregation of `_getTasks`, abstracted to a single
accumulator (`none` = the id was not seen yet). -/
def stepT (acc : Option Agg) (r : Registro) : Option Agg :=
  some (match acc with | none => initAgg r | some a => updAgg a r)

/-- Left-biased choice on optional values. -/
def ooElse (x y : Option Val) : Option Val :=
  match x with | some v => some v | none => y

/-- The value carried by the last event in the list that specifies `k`
with a non-`None` value (later elements win). -/
def lastSpecOf (l : List Registro) (k : String) : Option Val :=
  l.foldl (fun acc r => match dgetNN (effData r) k with | some v => some v | none => acc) none

/-- Default-carrying "timestamp of the last element". -/
def lastWhenD : List Registro → Int → Int
  | [], d => d
  | r :: t, _ => lastWhenD t r.when

/-- Does the payload value parse as a non-negative integer under the
acceptance test of `_getTasks` (`isinstance(v, (int, str)) and
str(v).isdigit()`; Python `bool` is an `int`)? -/
def parsesNonnegDigits : Val → Option Int
  | .vint n => if pyIsdigit (pyStr (.vint n)) then some (Int.ofNat (digitsToNat (pyStr (.vint n)).data)) else none
  | .vbool b => if pyIsdigit (pyStr (.vbool b)) then some (Int.ofNat (digitsToNat (pyStr (.vbool b)).data)) else none
  | .vstr s => if pyIsdigit s then some (Int.ofNat (digitsToNat s.data)) else none
  | _ => none

/-- A `SCHEDULED` event for task `tsk_1` (witness input). -/
def regA : Registro :=
  { kind := .TASK, event := "SCHEDULED", task_id := "tsk_1", when := 10,
    message := "creada", data := .vdict [("title", .vstr "A"), ("status", .vstr "PENDING")],
    id := none }

/-- A later `DONE` event for task `tsk_1` whose `status` is `null`
(witness input; arrives before `regA`). -/
def regB : Registro :=
  { kind := .TASK, event := "DONE", task_id := "tsk_1", when := 20,
    message := "", data := .vdict [("title", .vstr "B"), ("status", .vnull)],
    id := none }

/-- A log holding one `DONE` row for the forced action dated 2025-09-11
(witness input). -/
def logW : List (List String) :=
  [["", "TASK", "DONE", "tsk_w", "2025-09-11T10:00:00-06:00", "DONE", "publicacionFbUmigus"]]

/-- Accumulator with title, retries and max_retries present (witness input). -/
def aggW1 : Agg :=
  { first_when := 1, last_when := 2,
    data := [("title", .vstr "T"), ("retries", .vstr "3"), ("max_retries", .vint 2)],
    message := "m", kind := .TASK, last_event := "X" }

/-- Accumulator with unparsable numeric fields and no title (witness input). -/
def aggW2 : Agg :=
  { first_when := 1, last_when := 2,
    data := [("retries", .vstr "x"), ("max_retries", .vlist [])],
    message := "mensaje", kind := .TASK, last_event := "X" }

/-- Empty accumulator (witness input). -/
def aggW3 : Agg :=
  { first_when := 1, last_when := 2, data := [], message := "",
    kind := .TASK, last_event := "X" }

theorem hasSubL_nil (l : List Char) : hasSubL [] l = true := by
  cases l <;> simp [hasSubL, startsWithL]

theorem startsWithL_append_self (b t : List Char) : startsWithL b (b ++ t) = true := by
  induction b with
  | nil => simp [startsWithL]
  | cons c cs ih => simp [startsWithL, ih]

theorem hasSubL_self_append (b t : List Char) : hasSubL b (b ++ t) = true := by
  cases b with
  | nil => simpa using hasSubL_nil t
  | cons c cs =>
    simp only [hasSubL, Bool.or_eq_true]
    exact Or.inl (startsWithL_append_self (c :: cs) t)

theorem hasSubL_cons (b : List Char) (c : Char) (l : List Char) (h : hasSubL b l = true) :
    hasSubL b (c :: l) = true := by
  simp [hasSubL, h]

theorem hasSubL_sandwich (pre mid post : List Char) :
    hasSubL mid (pre ++ (mid ++ post)) = true := by
  induction pre with
  | nil => simpa using hasSubL_self_append mid post
  | cons c cs ih => exact hasSubL_cons _ _ _ ih

theorem accion_searched (st : RoutineState) (name : String) (res : Except PyExc String)
    (tid now : String) : (accion st name res tid now).searched = st.searched := by
  cases res <;> rfl

theorem dget_dictInsert (d : Dict) (k : String) (v : Val) (k0 : String) :
    dget (dictInsert d k v) k0 = if k = k0 then some v else dget d k0 := by
  induction d with
  | nil => simp [dictInsert, dget]
  | cons p d ih =>
    obtain ⟨k', v'⟩ := p
    by_cases hk : k' = k <;> by_cases h0 : k' = k0 <;>
      simp_all [dictInsert, dget] <;>
      · rw [if_neg (fun hc => hk hc.symm)]

theorem dget_dictUpdate (u b : Dict) (k : String) :
    dget (dictUpdate b u) k = ooElse (dgetLast u k) (dget b k) := by
  induction u generalizing b with
  | nil => rfl
  | cons p u' ih =>
    obtain ⟨k1, v1⟩ := p
    show dget (dictUpdate (dictInsert b k1 v1) u') k = _
    rw [ih, dget_dictInsert, dgetLast]
    cases dgetLast u' k with
    | some v => rfl
    | none =>
      simp only [ooElse]
      by_cases h : k1 = k
      · rw [if_pos h, if_pos h]
      · rw [if_neg h, if_neg h]

theorem dgetLast_none_of_absent (d : Dict) (k : String) (h : ∀ p ∈ d, p.1 ≠ k) :
    dgetLast d k = none := by
  induction d with
  | nil => rfl
  | cons p d ih =>
    rw [dgetLast, ih (fun q hq => h q (List.mem_cons_of_mem p hq))]
    rw [if_neg (h p (List.mem_cons_self p d))]

theorem dgetNN_ne_null (d : Dict) (k : String) (v : Val) (h : dgetNN d k = some v) :
    v.isNull = false := by
  rw [dgetNN] at h
  cases hd : dget d k with
  | none => rw [hd] at h; cases h
  | some w =>
    rw [hd] at h
    cases w <;> first
      | (cases h; rfl)
      | cases h

theorem dgetLast_filter_nonnull (u : Dict) (k : String) (hnd : keysNodup u = true) :
    dgetLast (u.filter (fun kv => !kv.2.isNull)) k = dgetNN u k := by
  induction u with
  | nil => rfl
  | cons p u' ih =>
    obtain ⟨k1, v1⟩ := p
    rw [keysNodup, Bool.and_eq_true] at hnd
    obtain ⟨habs, hnd'⟩ := hnd
    have habs' : ∀ q ∈ u', q.1 ≠ k1 := by
      intro q hq heq
      have hfalse : u'.any (fun kv => kv.1 == k1) = false := by
        cases hh : u'.any (fun kv => kv.1 == k1)
        · rfl
        · rw [hh] at habs; cases habs
      rw [List.any_eq_false] at hfalse
      exact hfalse q hq (by simp [heq])
    by_cases hk : k1 = k
    · subst hk
      have hnone : dgetLast (u'.filter (fun kv => !kv.2.isNull)) k1 = none := by
        refine dgetLast_none_of_absent _ _ (fun q hq => habs' q (List.mem_filter.mp hq).1)
      cases hv : v1.isNull with
      | true =>
        have hv1 : v1 = .vnull := by cases v1 <;> simp_all [Val.isNull]
        subst hv1
        have hfe : List.filter (fun kv => !kv.2.isNull) ((k1, Val.vnull) :: u')
            = u'.filter (fun kv => !kv.2.isNull) := by
          simp [List.filter_cons, Val.isNull]
        rw [hfe, hnone]
        simp [dgetNN, dget]
      | false =>
        have hfe : List.filter (fun kv => !kv.2.isNull) ((k1, v1) :: u')
            = (k1, v1) :: u'.filter (fun kv => !kv.2.isNull) := by
          simp [List.filter_cons, hv]
        rw [hfe, dgetLast, hnone]
        rw [if_pos rfl]
        rw [dgetNN, dget, if_pos rfl]
        cases v1 <;> simp_all [Val.isNull]
    · have hrhs : dgetNN ((k1, v1) :: u') k = dgetNN u' k := by
        rw [dgetNN, dget, if_neg hk, dgetNN]
      rw [hrhs, ← ih hnd']
      cases hv : v1.isNull with
      | true =>
        have hfe : List.filter (fun kv => !kv.2.isNull) ((k1, v1) :: u')
            = u'.filter (fun kv => !kv.2.isNull) := by
          simp [List.filter_cons, hv]
        rw [hfe]
      | false =>
        have hfe : List.filter (fun kv => !kv.2.isNull) ((k1, v1) :: u')
            = (k1, v1) :: u'.filter (fun kv => !kv.2.isNull) := by
          simp [List.filter_cons, hv]
        rw [hfe, dgetLast]
        cases dgetLast (u'.filter (fun kv => !kv.2.isNull)) k with
        | some v => rfl
        | none => rw [if_neg hk]

theorem dgetNN_dictUpdateNonNull (b u : Dict) (k : String) (hnd : keysNodup u = true) :
    dgetNN (dictUpdateNonNull b u) k = ooElse (dgetNN u k) (dgetNN b k) := by
  have hdget : dget (dictUpdateNonNull b u) k
      = ooElse (dgetNN u k) (dget b k) := by
    rw [dictUpdateNonNull, dget_dictUpdate, dgetLast_filter_nonnull u k hnd]
  cases hu : dgetNN u k with
  | some v =>
    rw [hu] at hdget
    rw [dgetNN, hdget]
    simp only [ooElse]
    have := dgetNN_ne_null u k v hu
    cases v <;> first
      | rfl
      | (cases this)
  | none =>
    rw [hu] at hdget
    rw [dgetNN, hdget]
    simp only [ooElse]
    rw [dgetNN]

theorem insByWhen_perm (r : Registro) (l : List Registro) :
    List.Perm (insByWhen r l) (r :: l) := by
  induction l with
  | nil => exact List.Perm.refl _
  | cons y ys ih =>
    rw [insByWhen]
    split
    · exact List.Perm.refl _
    · exact (List.Perm.cons y ih).trans (List.Perm.swap r y ys)

theorem sortByWhen_perm (l : List Registro) : List.Perm (sortByWhen l) l := by
  induction l with
  | nil => exact List.Perm.refl _
  | cons r rest ih =>
    exact (insByWhen_perm r (sortByWhen rest)).trans (List.Perm.cons r ih)

theorem insByWhen_sorted (r : Registro) (l : List Registro)
    (h : l.Pairwise (fun x y => x.when ≤ y.when)) :
    (insByWhen r l).Pairwise (fun x y => x.when ≤ y.when) := by
  induction l with
  | nil => simp [insByWhen]
  | cons y ys ih =>
    rw [insByWhen]
    rw [List.pairwise_cons] at h
    obtain ⟨hy, hys⟩ := h
    split
    · rename_i hle
      rw [List.pairwise_cons]
      refine ⟨?_, List.pairwise_cons.mpr ⟨hy, hys⟩⟩
      intro z hz
      rcases List.mem_cons.mp hz with hz | hz
      · rw [hz]; exact hle
      · exact le_trans hle (hy z hz)
    · rename_i hgt
      rw [List.pairwise_cons]
      refine ⟨?_, ih hys⟩
      intro z hz
      have hz' := (insByWhen_perm r ys).mem_iff.mp hz
      rcases List.mem_cons.mp hz' with hz' | hz'
      · rw [hz']
        omega
      · exact hy z hz'

theorem sortByWhen_sorted (l : List Registro) :
    (sortByWhen l).Pairwise (fun x y => x.when ≤ y.when) := by
  induction l with
  | nil => simp [sortByWhen]
  | cons r rest ih => exact insByWhen_sorted r _ ih

theorem aggFind_append_single (agg : List (String × Agg)) (t : String) (a : Agg)
    (tid : String) :
    aggFind (agg ++ [(t, a)]) tid =
      match aggFind agg tid with
      | some x => some x
      | none => if t = tid then some a else none := by
  induction agg with
  | nil => rfl
  | cons p rest ih =>
    obtain ⟨t', a'⟩ := p
    rw [List.cons_append, aggFind, aggFind]
    split
    · rfl
    · exact ih

theorem aggFind_replace_self (agg : List (String × Agg)) (tid : String) (a' : Agg) :
    aggFind (replaceAgg agg tid a') tid =
      match aggFind agg tid with
      | some _ => some a'
      | none => none := by
  induction agg with
  | nil => rfl
  | cons p rest ih =>
    obtain ⟨t, a⟩ := p
    rw [replaceAgg]
    split
    · rename_i h
      rw [aggFind, if_pos h, aggFind, if_pos h]
    · rename_i h
      rw [aggFind, if_neg h, aggFind, if_neg h]
      exact ih

theorem aggFind_replace_other (agg : List (String × Agg)) (tid' : String) (a' : Agg)
    (tid : String) (h : tid' ≠ tid) :
    aggFind (replaceAgg agg tid' a') tid = aggFind agg tid := by
  induction agg with
  | nil => rfl
  | cons p rest ih =>
    obtain ⟨t, a⟩ := p
    rw [replaceAgg]
    split
    · rename_i ht
      subst ht
      rw [aggFind, if_neg h, aggFind, if_neg h]
    · rw [aggFind, aggFind]
      split
      · rfl
      · exact ih

theorem aggFind_foldStep (l : List Registro) (agg : List (String × Agg)) (tid : String) :
    aggFind (l.foldl foldStep agg) tid =
      (l.filter (fun r => r.task_id == tid)).foldl stepT (aggFind agg tid) := by
  induction l generalizing agg with
  | nil => rfl
  | cons r rest ih =>
    rw [List.foldl_cons, ih, List.filter_cons]
    by_cases ht : r.task_id = tid
    · have hbeq : (r.task_id == tid) = true := by simp [ht]
      rw [hbeq]
      rw [if_pos rfl]
      rw [List.foldl_cons]
      have hstep : aggFind (foldStep agg r) tid = stepT (aggFind agg tid) r := by
        rw [foldStep, ht]
        cases hfind : aggFind agg tid with
        | none =>
          rw [aggFind_append_single, hfind]
          rw [if_pos rfl]
          rfl
        | some a =>
          rw [aggFind_replace_self, hfind]
          rfl
      rw [hstep]
    · have hbeq : (r.task_id == tid) = false := by simp [ht]
      rw [hbeq]
      simp only [Bool.false_eq_true, if_false]
      have hstep : aggFind (foldStep agg r) tid = aggFind agg tid := by
        rw [foldStep]
        cases hfind : aggFind agg r.task_id with
        | none =>
          rw [aggFind_append_single]
          cases hf2 : aggFind agg tid with
          | some x => rfl
          | none => rw [if_neg ht]
        | some a => exact aggFind_replace_other agg r.task_id (updAgg a r) tid ht
      rw [hstep]

theorem foldl_stepT_some (t : List Registro) (a : Agg) :
    t.foldl stepT (some a) = some (t.foldl updAgg a) := by
  induction t generalizing a with
  | nil => rfl
  | cons r rest ih => exact ih (updAgg a r)

theorem updFold_first (t : List Registro) (a : Agg) :
    (t.foldl updAgg a).first_when = a.first_when := by
  induction t generalizing a with
  | nil => rfl
  | cons r rest ih => exact ih (updAgg a r)

theorem updFold_last (t : List Registro) (a : Agg) :
    (t.foldl updAgg a).last_when = lastWhenD t a.last_when := by
  induction t generalizing a with
  | nil => rfl
  | cons r rest ih => exact ih (updAgg a r)

theorem lastSpecOf_shift (t : List Registro) (k : String) (acc : Option Val) :
    (t.foldl (fun acc r => match dgetNN (effData r) k with
      | some v => some v
      | none => acc) acc) = ooElse (lastSpecOf t k) acc := by
  induction t generalizing acc with
  | nil => rfl
  | cons r rest ih =>
    rw [List.foldl_cons, ih]
    have hR : lastSpecOf (r :: rest) k
        = ooElse (lastSpecOf rest k) (match dgetNN (effData r) k with
            | some v => some v
            | none => none) := ih _
    rw [hR]
    cases lastSpecOf rest k with
    | some v => rfl
    | none =>
      simp only [ooElse]
      cases dgetNN (effData r) k <;> rfl

theorem lastSpecOf_cons (r : Registro) (rest : List Registro) (k : String) :
    lastSpecOf (r :: rest) k
      = ooElse (lastSpecOf rest k) (match dgetNN (effData r) k with
          | some v => some v
          | none => none) :=
  lastSpecOf_shift rest k _

theorem updFold_data (t : List Registro) (a : Agg) (k : String)
    (hnd : ∀ r ∈ t, keysNodup (effData r) = true) :
    dgetNN ((t.foldl updAgg a).data) k = ooElse (lastSpecOf t k) (dgetNN a.data k) := by
  induction t generalizing a with
  | nil => rfl
  | cons r rest ih =>
    rw [List.foldl_cons]
    rw [ih (updAgg a r) (fun q hq => hnd q (List.mem_cons_of_mem r hq))]
    have hupd : dgetNN (updAgg a r).data k
        = ooElse (dgetNN (effData r) k) (dgetNN a.data k) := by
      exact dgetNN_dictUpdateNonNull a.data (effData r) k (hnd r (List.mem_cons_self r rest))
    rw [hupd, lastSpecOf_cons]
    cases lastSpecOf rest k with
    | some v => rfl
    | none =>
      simp only [ooElse]
      cases dgetNN (effData r) k <;> rfl

theorem lastSpecOf_eq_none (m : List Registro) (k : String) (h : lastSpecOf m k = none) :
    ∀ r ∈ m, dgetNN (effData r) k = none := by
  induction m with
  | nil => intro r hr; cases hr
  | cons r rest ih =>
    rw [lastSpecOf_cons] at h
    have h1 : lastSpecOf rest k = none := by
      cases hh : lastSpecOf rest k with
      | none => rfl
      | some v => rw [hh] at h; cases h
    rw [h1] at h
    simp only [ooElse] at h
    intro q hq
    rcases List.mem_cons.mp hq with hq | hq
    · subst hq
      cases hf : dgetNN (effData q) k with
      | none => rfl
      | some v => rw [hf] at h; cases h
    · exact ih h1 q hq

theorem mem_eq_of_when_eq (m : List Registro)
    (hs : m.Pairwise (fun x y => x.when < y.when)) (a b : Registro)
    (ha : a ∈ m) (hb : b ∈ m) (hw : a.when = b.when) : a = b := by
  induction m with
  | nil => cases ha
  | cons h t ih =>
    rw [List.pairwise_cons] at hs
    obtain ⟨hh, ht⟩ := hs
    rcases List.mem_cons.mp ha with ha' | ha' <;> rcases List.mem_cons.mp hb with hb' | hb'
    · rw [ha', hb']
    · exfalso
      have := hh b hb'
      rw [ha'] at hw
      omega
    · exfalso
      have := hh a ha'
      rw [hb'] at hw
      omega
    · exact ih ht ha' hb'

theorem lastSpecOf_char (m : List Registro) (k : String)
    (hs : m.Pairwise (fun x y => x.when < y.when)) :
    ∀ v, (lastSpecOf m k = some v ↔
      ∃ r ∈ m, dgetNN (effData r) k = some v ∧
        ∀ q ∈ m, (dgetNN (effData q) k).isSome = true → q.when ≤ r.when) := by
  induction m with
  | nil => intro v; simp [lastSpecOf]
  | cons h t ih =>
    rw [List.pairwise_cons] at hs
    obtain ⟨hhlt, hst⟩ := hs
    intro v
    rw [lastSpecOf_cons]
    cases hrest : lastSpecOf t k with
    | some w =>
      simp only [ooElse]
      obtain ⟨r, hrmem, hrspec, hrmax⟩ := ((ih hst) w).mp hrest
      constructor
      · intro hv
        have hwv : w = v := by cases hv; rfl
        subst hwv
        refine ⟨r, List.mem_cons_of_mem h hrmem, hrspec, ?_⟩
        intro q hq hqs
        rcases List.mem_cons.mp hq with hq' | hq'
        · subst hq'
          exact le_of_lt (hhlt r hrmem)
        · exact hrmax q hq' hqs
      · rintro ⟨r0, hr0mem, hr0spec, hr0max⟩
        rcases List.mem_cons.mp hr0mem with hr0' | hr0'
        · exfalso
          subst hr0'
          have h1 := hr0max r (List.mem_cons_of_mem r0 hrmem) (by rw [hrspec]; rfl)
          have h2 := hhlt r hrmem
          omega
        · have h1 := hr0max r (List.mem_cons_of_mem h hrmem) (by rw [hrspec]; rfl)
          have h2 := hrmax r0 hr0' (by rw [hr0spec]; rfl)
          have : r0 = r := mem_eq_of_when_eq t hst r0 r hr0' hrmem (by omega)
          subst this
          rw [hr0spec] at hrspec
          cases hrspec
          rfl
    | none =>
      have hnone := lastSpecOf_eq_none t k hrest
      simp only [ooElse]
      cases hf : dgetNN (effData h) k with
      | some w =>
        constructor
        · intro hv
          have hwv : w = v := by cases hv; rfl
          subst hwv
          refine ⟨h, List.mem_cons_self h t, hf, ?_⟩
          intro q hq hqs
          rcases List.mem_cons.mp hq with hq' | hq'
          · subst hq'; exact le_refl _
          · rw [hnone q hq'] at hqs; cases hqs
        · rintro ⟨r0, hr0mem, hr0spec, _⟩
          rcases List.mem_cons.mp hr0mem with hr0' | hr0'
          · subst hr0'
            rw [hf] at hr0spec
            cases hr0spec
            rfl
          · rw [hnone r0 hr0'] at hr0spec
            cases hr0spec
      | none =>
        constructor
        · intro hv; cases hv
        · rintro ⟨r0, hr0mem, hr0spec, _⟩
          rcases List.mem_cons.mp hr0mem with hr0' | hr0'
          · subst hr0'
            rw [hf] at hr0spec
            cases hr0spec
          · rw [hnone r0 hr0'] at hr0spec
            cases hr0spec

theorem lastWhenD_max (t : List Registro) (h : Registro)
    (hp : (h :: t).Pairwise (fun x y => x.when ≤ y.when)) :
    ∃ z ∈ h :: t, lastWhenD t h.when = z.when ∧ ∀ q ∈ h :: t, q.when ≤ z.when := by
  induction t generalizing h with
  | nil =>
    refine ⟨h, List.mem_cons_self h [], rfl, ?_⟩
    intro q hq
    rcases List.mem_cons.mp hq with hq' | hq'
    · rw [hq']
    · cases hq'
  | cons r t' ih =>
    rw [List.pairwise_cons] at hp
    obtain ⟨hh, ht⟩ := hp
    obtain ⟨z, hzmem, hzeq, hzmax⟩ := ih r ht
    refine ⟨z, List.mem_cons_of_mem h hzmem, hzeq, ?_⟩
    intro q hq
    rcases List.mem_cons.mp hq with hq' | hq'
    · subst hq'
      rcases List.mem_cons.mp hzmem with hz' | hz'
      · rw [hz']; exact hh r (List.mem_cons_self r t')
      · exact hh z (List.mem_cons_of_mem r hz')
    · exact hzmax q hq'

theorem aggFind_mem (agg : List (String × Agg)) (tid : String) (a : Agg)
    (h : aggFind agg tid = some a) : (tid, a) ∈ agg := by
  induction agg with
  | nil => cases h
  | cons p rest ih =>
    obtain ⟨t0, a0⟩ := p
    rw [aggFind] at h
    by_cases ht : t0 = tid
    · rw [if_pos ht] at h
      cases h
      subst ht
      exact List.mem_cons_self _ _
    · rw [if_neg ht] at h
      exact List.mem_cons_of_mem _ (ih h)

theorem optValId (o : Option Val) :
    (match o with | some v => some v | none => none) = o := by
  cases o <;> rfl

theorem parsesNonnegDigits_nonneg (v : Val) (n : Int) (h : parsesNonnegDigits v = some n) :
    0 ≤ n := by
  cases v <;> simp [parsesNonnegDigits] at h <;>
    · obtain ⟨_, hv⟩ := h
      rw [← hv]
      positivity

theorem retriesOf_vint_zero : retriesOf (.vint 0) = 0 := by decide

theorem retriesPipeline (o : Option Val) :
    retriesOf (pyOr (o.getD (.vint 0)) (.vint 0)) =
      (match o with | some v => (parsesNonnegDigits v).getD 0 | none => 0) := by
  cases o with
  | none => exact retriesOf_vint_zero
  | some v =>
    cases v with
    | vint n =>
      by_cases hz : n = 0
      · subst hz
        simpa using retriesOf_vint_zero
      · have hd : pyTruthy (.vint n) = true := by simp [pyTruthy, hz]
        simp only [Option.getD_some, pyOr, hd, if_true]
        simp only [retriesOf, parsesNonnegDigits, Bool.true_and]
        split <;> simp
    | vstr s =>
      by_cases he : s.data.isEmpty
      · have hd : pyTruthy (.vstr s) = false := by simp [pyTruthy, he]
        simp only [Option.getD_some, pyOr, hd, Bool.false_eq_true, if_false]
        rw [retriesOf_vint_zero]
        simp [parsesNonnegDigits, pyIsdigit, he]
      · have hd : pyTruthy (.vstr s) = true := by simp [pyTruthy, he]
        simp only [Option.getD_some, pyOr, hd, if_true]
        simp only [retriesOf, parsesNonnegDigits, Bool.true_and, pyStr]
        split <;> simp
    | vbool b => cases b <;> decide
    | vnull => exact retriesOf_vint_zero
    | vlist xs => cases xs with
      | nil => decide
      | cons a l => rfl
    | vdict d => cases d with
      | nil => decide
      | cons a l => rfl
    | vdt t => rfl

/-- Claim C1 (code bug evidence): invoking the forced-action routine on an
empty log — where the search returns no rows, so no row can carry today's
date — executes the action twice and appends two completion rows, not once
and one: `_accion()` runs both inside the `len(existing) == 0` branch and,
because `flag` is still false, once more after the loop. -/
theorem routineEmptyLogExecutesTwice :
    (routine [] "2025-09-11" "2025-09-11T12:00:00-06:00"
      (fun n => String.append "tsk_" (toString n)) (fun _ => .ok "resultado")).execCount = 2 ∧
    (routine [] "2025-09-11" "2025-09-11T12:00:00-06:00"
      (fun n => String.append "tsk_" (toString n)) (fun _ => .ok "resultado")).log.length = 2 :=
  ⟨rfl, rfl⟩

/-- Claim C2: when at least one row returned by searching the log for the
action's name carries today's ISO date in its timestamp field, the routine
does not execute the action and appends nothing — the log is returned
unchanged. (`hw` records that the rows are wide enough for Python's `r[4]`.) -/
theorem routineSkipsWhenDoneToday (log0 : List (List String)) (today nowIso : String)
    (genId : Nat → String) (fnRes : Nat → Except PyExc String)
    (hw : ∀ r ∈ searchRows log0 "publicacionFbUmigus", 5 ≤ r.length)
    (h : (searchRows log0 "publicacionFbUmigus").any
        (fun r => strContains (r.getD 4 "") today) = true) :
    (routine log0 today nowIso genId fnRes).execCount = 0 ∧
    (routine log0 today nowIso genId fnRes).log = log0 := by
  have hne : ¬ (searchRows log0 "publicacionFbUmigus").length = 0 := by
    cases hsr : searchRows log0 "publicacionFbUmigus" with
    | nil => rw [hsr] at h; simp at h
    | cons a l => simp
  constructor <;>
  · simp only [routine, forcedNames, List.foldl, Bool.false_or]
    rw [if_neg hne]
    split
    · rename_i hcond
      exfalso
      simp only [] at hcond
      rw [h] at hcond
      simp at hcond
    · rfl

/-- Witness for C2 at a concrete log holding one row for the action dated
2025-09-11. -/
theorem routineSkipsWhenDoneTodayWitness :
    (routine logW "2025-09-11" "2025-09-11T12:00:00-06:00"
      (fun _ => "tsk_new") (fun _ => .ok "res")).execCount = 0 ∧
    (routine logW "2025-09-11" "2025-09-11T12:00:00-06:00"
      (fun _ => "tsk_new") (fun _ => .ok "res")).log = logW :=
  routineSkipsWhenDoneToday logW "2025-09-11" "2025-09-11T12:00:00-06:00"
    (fun _ => "tsk_new") (fun _ => .ok "res") (by decide) (by decide)

/-- Claim C3 (counterexample): the catalog `forced_tasks` contains the name
`publicacionFbGenesys`, but an invocation of the routine never searches the
log for (or evaluates) that catalog entry. -/
theorem catalogEntryGenesysNeverSearched :
    "publicacionFbGenesys" ∈ forced_tasks.map Prod.fst ∧
    "publicacionFbGenesys" ∉
      (routine [] "2025-09-11" "t" (fun _ => "i") (fun _ => .ok "r")).searched := by
  constructor
  · decide
  · decide

/-- Claim C3 (amended): every invocation of the routine searches the log for
exactly the names in the hardcoded tuple `("publicacionFbUmigus",)` — not for
every key of the `forced_tasks` catalog, whose key list also holds
`publicacionFbGenesys`. -/
theorem routineSearchesOnlyHardcodedName (log0 : List (List String))
    (today nowIso : String) (genId : Nat → String) (fnRes : Nat → Except PyExc String) :
    (routine log0 today nowIso genId fnRes).searched = ["publicacionFbUmigus"] ∧
    forced_tasks.map Prod.fst = ["publicacionFbUmigus", "publicacionFbGenesys"] := by
  refine ⟨?_, rfl⟩
  simp only [routine, forcedNames, List.foldl]
  split
  · split
    · rw [accion_searched, accion_searched]; rfl
    · rw [accion_searched]; rfl
  · split
    · rw [accion_searched]; rfl
    · rfl

/-- Claim C5: when the action's function raises, `_accion` appends nothing
(the log is unchanged by that execution attempt) and logs one error message
that contains both the action name and the exception's type name. -/
theorem accionExceptionAppendsNothing (st : RoutineState) (name tid nowIso : String)
    (e : PyExc) :
    (accion st name (.error e) tid nowIso).log = st.log ∧
    (accion st name (.error e) tid nowIso).errors = accionErrMsg name e :: st.errors ∧
    strContains (accionErrMsg name e) name = true ∧
    strContains (accionErrMsg name e) e.exType = true := by
  refine ⟨rfl, rfl, ?_, ?_⟩
  · have hdata : (accionErrMsg name e).data =
        ("Error ejecutando tarea forzada " ++ String.singleton squoteC).data ++
          (name.data ++ (String.singleton squoteC ++ ": " ++ e.exType ++ ": " ++ e.exMsg).data) := by
      simp [accionErrMsg, String.data_append, List.append_assoc]
    rw [strContains, hdata]
    exact hasSubL_sandwich _ _ _
  · have hdata : (accionErrMsg name e).data =
        ("Error ejecutando tarea forzada " ++ String.singleton squoteC ++ name
            ++ String.singleton squoteC ++ ": ").data ++
          (e.exType.data ++ (": " ++ e.exMsg).data) := by
      simp [accionErrMsg, String.data_append, List.append_assoc]
    rw [strContains, hdata]
    exact hasSubL_sandwich _ _ _

/-- Claim C4: for every collection of parsed log events and every task id in
it, reconciliation (sort by timestamp, then fold) produces an accumulator
whose `first_when`/`last_when` are the earliest/latest event timestamps for
that id, and whose merged payload binds each field to exactly the non-`None`
value of the chronologically last event that specified the field — stated
through membership only, so it is independent of the arrival order. The
materialized `Task` keeps the id and the two audit timestamps. `hdist` makes
"chronologically last" well defined; `hnodup` records that each event's
normalized payload is a Python dict (distinct keys). -/
theorem reconcileLastValueWins (l : List Registro) (tid : String)
    (hmem : tid ∈ l.map (fun r => r.task_id))
    (hdist : (l.filter (fun r => r.task_id == tid)).Pairwise (fun x y => x.when ≠ y.when))
    (hnodup : ∀ r ∈ l, r.task_id = tid → keysNodup (effData r) = true) :
    ∃ a, aggFind (reconcile l) tid = some a ∧
      (∃ r ∈ l, r.task_id = tid ∧ a.first_when = r.when ∧
        ∀ q ∈ l, q.task_id = tid → r.when ≤ q.when) ∧
      (∃ r ∈ l, r.task_id = tid ∧ a.last_when = r.when ∧
        ∀ q ∈ l, q.task_id = tid → q.when ≤ r.when) ∧
      (∀ k v, dgetNN a.data k = some v ↔
        ∃ r ∈ l, r.task_id = tid ∧ dgetNN (effData r) k = some v ∧
          ∀ q ∈ l, q.task_id = tid → (dgetNN (effData q) k).isSome = true →
            q.when ≤ r.when) ∧
      (∃ t ∈ getTasks l, t.id = tid ∧ t.created_at = a.first_when ∧
        t.updated_at = a.last_when) := by
  have hperm : List.Perm ((sortByWhen l).filter (fun r => r.task_id == tid))
      (l.filter (fun r => r.task_id == tid)) := (sortByWhen_perm l).filter _
  have hmemiff : ∀ r : Registro,
      r ∈ (sortByWhen l).filter (fun r => r.task_id == tid) ↔
        (r ∈ l ∧ r.task_id = tid) := by
    intro r
    rw [hperm.mem_iff, List.mem_filter]
    simp
  have hsort : ((sortByWhen l).filter (fun r => r.task_id == tid)).Pairwise
      (fun x y => x.when ≤ y.when) :=
    (sortByWhen_sorted l).sublist (List.filter_sublist _)
  have hdist' : ((sortByWhen l).filter (fun r => r.task_id == tid)).Pairwise
      (fun x y => x.when ≠ y.when) :=
    (hperm.pairwise_iff (fun h => h.symm)).mpr hdist
  have hstrict : ((sortByWhen l).filter (fun r => r.task_id == tid)).Pairwise
      (fun x y => x.when < y.when) :=
    (hsort.and hdist').imp (fun h => lt_of_le_of_ne h.1 h.2)
  have hne : (sortByWhen l).filter (fun r => r.task_id == tid) ≠ [] := by
    rw [List.mem_map] at hmem
    obtain ⟨r0, hr0, hr0t⟩ := hmem
    intro hnil
    have := (hmemiff r0).mpr ⟨hr0, hr0t⟩
    rw [hnil] at this
    cases this
  cases hmcase : (sortByWhen l).filter (fun r => r.task_id == tid) with
  | nil => exact absurd hmcase hne
  | cons h0 t =>
    rw [hmcase] at hmemiff hsort hstrict
    have hnodup' : ∀ r ∈ t, keysNodup (effData r) = true := by
      intro r hr
      obtain ⟨hrl, hrt⟩ := (hmemiff r).mp (List.mem_cons_of_mem h0 hr)
      exact hnodup r hrl hrt
    have hfind : aggFind (reconcile l) tid = some (t.foldl updAgg (initAgg h0)) := by
      rw [reconcile, aggFind_foldStep, hmcase]
      show (h0 :: t).foldl stepT none = _
      rw [List.foldl_cons]
      exact foldl_stepT_some t (initAgg h0)
    refine ⟨t.foldl updAgg (initAgg h0), hfind, ?_, ?_, ?_, ?_⟩
    · obtain ⟨h0l, h0t⟩ := (hmemiff h0).mp (List.mem_cons_self h0 t)
      refine ⟨h0, h0l, h0t, ?_, ?_⟩
      · rw [updFold_first]
        rfl
      · intro q hq hqt
        have hqm := (hmemiff q).mpr ⟨hq, hqt⟩
        rcases List.mem_cons.mp hqm with hq' | hq'
        · rw [hq']
        · exact (List.pairwise_cons.mp hsort).1 q hq'
    · obtain ⟨z, hzmem, hzeq, hzmax⟩ := lastWhenD_max t h0 hsort
      obtain ⟨hzl, hzt⟩ := (hmemiff z).mp hzmem
      refine ⟨z, hzl, hzt, ?_, ?_⟩
      · rw [updFold_last]
        exact hzeq
      · intro q hq hqt
        exact hzmax q ((hmemiff q).mpr ⟨hq, hqt⟩)
    · intro k v
      have hdata : dgetNN ((t.foldl updAgg (initAgg h0)).data) k
          = lastSpecOf (h0 :: t) k := by
        rw [updFold_data t (initAgg h0) k hnodup', lastSpecOf_cons, optValId]
        rfl
      rw [hdata, lastSpecOf_char (h0 :: t) k hstrict v]
      constructor
      · rintro ⟨r, hrmem, hrspec, hrmax⟩
        obtain ⟨hrl, hrt⟩ := (hmemiff r).mp hrmem
        exact ⟨r, hrl, hrt, hrspec, fun q hq hqt hqs =>
          hrmax q ((hmemiff q).mpr ⟨hq, hqt⟩) hqs⟩
      · rintro ⟨r, hrl, hrt, hrspec, hrmax⟩
        refine ⟨r, (hmemiff r).mpr ⟨hrl, hrt⟩, hrspec, ?_⟩
        intro q hqm hqs
        obtain ⟨hql, hqt⟩ := (hmemiff q).mp hqm
        exact hrmax q hql hqt hqs
    · refine ⟨materializeTask tid (t.foldl updAgg (initAgg h0)), ?_, rfl, rfl, rfl⟩
      rw [getTasks]
      exact List.mem_map.mpr ⟨(tid, t.foldl updAgg (initAgg h0)),
        aggFind_mem _ _ _ hfind, rfl⟩

/-- Witness for C4: the two events `regB` (later, arrives first) and `regA`
(earlier) for task `tsk_1`. -/
theorem reconcileLastValueWinsWitness :
    ∃ a, aggFind (reconcile [regB, regA]) "tsk_1" = some a ∧
      (∃ r ∈ [regB, regA], r.task_id = "tsk_1" ∧ a.first_when = r.when ∧
        ∀ q ∈ [regB, regA], q.task_id = "tsk_1" → r.when ≤ q.when) ∧
      (∃ r ∈ [regB, regA], r.task_id = "tsk_1" ∧ a.last_when = r.when ∧
        ∀ q ∈ [regB, regA], q.task_id = "tsk_1" → q.when ≤ r.when) ∧
      (∀ k v, dgetNN a.data k = some v ↔
        ∃ r ∈ [regB, regA], r.task_id = "tsk_1" ∧ dgetNN (effData r) k = some v ∧
          ∀ q ∈ [regB, regA], q.task_id = "tsk_1" → (dgetNN (effData q) k).isSome = true →
            q.when ≤ r.when) ∧
      (∃ t ∈ getTasks [regB, regA], t.id = "tsk_1" ∧ t.created_at = a.first_when ∧
        t.updated_at = a.last_when) :=
  reconcileLastValueWins [regB, regA] "tsk_1" (by decide) (by decide) (by decide)

/-- Claim C6: the materialized `Task` takes its title from the payload when
present (and truthy), else from the last non-empty message, else from the task
id itself; `mode`/`priority`/`status` default to `USER`/`MED`/`PENDING` when
absent from the merged payload; `retries`/`max_retries` default to 0 and take
a payload value exactly when it parses as a non-negative integer; the id is
the task id from the events and the audit timestamps are the accumulator's. -/
theorem materializeTaskFieldRules (tid : String) (a : Agg) :
    (materializeTask tid a).id = tid ∧
    (∀ v, dget a.data "title" = some v → pyTruthy v = true →
      (materializeTask tid a).title = v) ∧
    ((match dget a.data "title" with | some v => pyTruthy v | none => false) = false →
      a.message.data.isEmpty = false → (materializeTask tid a).title = .vstr a.message) ∧
    ((match dget a.data "title" with | some v => pyTruthy v | none => false) = false →
      a.message.data.isEmpty = true → (materializeTask tid a).title = .vstr tid) ∧
    (dget a.data "mode" = none → (materializeTask tid a).mode = Mode.USER) ∧
    (dget a.data "priority" = none → (materializeTask tid a).priority = Priority.MED) ∧
    (dget a.data "status" = none → (materializeTask tid a).status = Status.PENDING) ∧
    (dget a.data "retries" = none → (materializeTask tid a).retries = 0) ∧
    (∀ v, dget a.data "retries" = some v → parsesNonnegDigits v = none →
      (materializeTask tid a).retries = 0) ∧
    (∀ v n, dget a.data "retries" = some v → parsesNonnegDigits v = some n →
      (materializeTask tid a).retries = n ∧ 0 ≤ n) ∧
    (dget a.data "max_retries" = none → (materializeTask tid a).max_retries = 0) ∧
    (∀ v, dget a.data "max_retries" = some v → parsesNonnegDigits v = none →
      (materializeTask tid a).max_retries = 0) ∧
    (∀ v n, dget a.data "max_retries" = some v → parsesNonnegDigits v = some n →
      (materializeTask tid a).max_retries = n ∧ 0 ≤ n) ∧
    (materializeTask tid a).created_at = a.first_when ∧
    (materializeTask tid a).updated_at = a.last_when := by
  have hre : (materializeTask tid a).retries =
      retriesOf (pyOr ((dget a.data "retries").getD (.vint 0)) (.vint 0)) := rfl
  have hmre : (materializeTask tid a).max_retries =
      retriesOf (pyOr ((dget a.data "max_retries").getD (.vint 0)) (.vint 0)) := rfl
  refine ⟨rfl, ?_, ?_, ?_, ?_, ?_, ?_, ?_, ?_, ?_, ?_, ?_, ?_, rfl, rfl⟩
  · intro v h ht
    have heq : (materializeTask tid a).title =
        pyOr ((dget a.data "title").getD .vnull) (pyOr (.vstr a.message) (.vstr tid)) := rfl
    rw [heq, h, Option.getD_some, pyOr, if_pos ht]
  · intro hfalse hmsg
    have heq : (materializeTask tid a).title =
        pyOr ((dget a.data "title").getD .vnull) (pyOr (.vstr a.message) (.vstr tid)) := rfl
    rw [heq]
    have h1 : pyTruthy ((dget a.data "title").getD .vnull) = false := by
      cases hd : dget a.data "title" with
      | none => rfl
      | some v => rw [hd] at hfalse; simpa using hfalse
    rw [pyOr, if_neg (by simp [h1])]
    rw [pyOr, if_pos (by simp [pyTruthy, hmsg])]
  · intro hfalse hmsg
    have heq : (materializeTask tid a).title =
        pyOr ((dget a.data "title").getD .vnull) (pyOr (.vstr a.message) (.vstr tid)) := rfl
    rw [heq]
    have h1 : pyTruthy ((dget a.data "title").getD .vnull) = false := by
      cases hd : dget a.data "title" with
      | none => rfl
      | some v => rw [hd] at hfalse; simpa using hfalse
    rw [pyOr, if_neg (by simp [h1])]
    rw [pyOr, if_neg (by simp [pyTruthy, hmsg])]
  · intro h
    have heq : (materializeTask tid a).mode =
        (match dget a.data "mode" with
          | none => coerceMode (.isEnum .USER)
          | some v => coerceMode (.raw v)) := rfl
    rw [heq, h]
    rfl
  · intro h
    have heq : (materializeTask tid a).priority =
        (match dget a.data "priority" with
          | none => coercePriority (.isEnum .MED)
          | some v => coercePriority (.raw v)) := rfl
    rw [heq, h]
    rfl
  · intro h
    have heq : (materializeTask tid a).status =
        (match dget a.data "status" with
          | none => coerceStatus (.isEnum .PENDING)
          | some v => coerceStatus (.raw v)) := rfl
    rw [heq, h]
    rfl
  · intro h
    rw [hre, retriesPipeline, h]
  · intro v h hp
    rw [hre, retriesPipeline, h]
    simp [hp]
  · intro v n h hp
    refine ⟨?_, parsesNonnegDigits_nonneg v n hp⟩
    rw [hre, retriesPipeline, h]
    simp [hp]
  · intro h
    rw [hmre, retriesPipeline, h]
  · intro v h hp
    rw [hmre, retriesPipeline, h]
    simp [hp]
  · intro v n h hp
    refine ⟨?_, parsesNonnegDigits_nonneg v n hp⟩
    rw [hmre, retriesPipeline, h]
    simp [hp]

/-- Witness for C6 at three concrete accumulators, covering the title
fallback chain, the enum defaults and both numeric outcomes. -/
theorem materializeTaskFieldRulesWitness :
    (materializeTask "t1" aggW1).title = .vstr "T" ∧
    (materializeTask "t1" aggW1).retries = 3 ∧
    (materializeTask "t1" aggW1).max_retries = 2 ∧
    (materializeTask "t2" aggW2).title = .vstr "mensaje" ∧
    (materializeTask "t2" aggW2).retries = 0 ∧
    (materializeTask "t2" aggW2).max_retries = 0 ∧
    (materializeTask "t3" aggW3).title = .vstr "t3" ∧
    (materializeTask "t3" aggW3).mode = Mode.USER ∧
    (materializeTask "t3" aggW3).priority = Priority.MED ∧
    (materializeTask "t3" aggW3).status = Status.PENDING ∧
    (materializeTask "t3" aggW3).retries = 0 :=
  ⟨(materializeTaskFieldRules "t1" aggW1).2.1 (.vstr "T") rfl rfl,
   ((materializeTaskFieldRules "t1" aggW1).2.2.2.2.2.2.2.2.2.1 (.vstr "3") 3 rfl rfl).1,
   ((materializeTaskFieldRules "t1" aggW1).2.2.2.2.2.2.2.2.2.2.2.2.1 (.vint 2) 2 rfl rfl).1,
   (materializeTaskFieldRules "t2" aggW2).2.2.1 rfl rfl,
   (materializeTaskFieldRules "t2" aggW2).2.2.2.2.2.2.2.2.1 (.vstr "x") rfl rfl,
   (materializeTaskFieldRules "t2" aggW2).2.2.2.2.2.2.2.2.2.2.2.1 (.vlist []) rfl rfl,
   (materializeTaskFieldRules "t3" aggW3).2.2.2.1 rfl rfl,
   (materializeTaskFieldRules "t3" aggW3).2.2.2.2.1 rfl,
   (materializeTaskFieldRules "t3" aggW3).2.2.2.2.2.1 rfl,
   (materializeTaskFieldRules "t3" aggW3).2.2.2.2.2.2.1 rfl,
   (materializeTaskFieldRules "t3" aggW3).2.2.2.2.2.2.2.1 rfl⟩

/-- Claim C7: a raw row whose kind column names no `Kind` member, or whose
timestamp column does not parse as ISO-8601, is excluded from the parsed
batch without raising, and every other row of the batch still parses and
contributes exactly as it would without the malformed row. -/
theorem malformedRowSkippedOthersParsed (l1 l2 : List (List String)) (row : List String)
    (hbad : kindOfString (row.getD 1 "") = none ∨ fromisoTz (row.getD 4 "") = none) :
    parseRow row = none ∧
    parseRegistries (l1 ++ row :: l2) = parseRegistries l1 ++ parseRegistries l2 := by
  have h1 : parseRow row = none := by
    rcases row with _ | ⟨c0, _ | ⟨c1, _ | ⟨c2, _ | ⟨c3, _ | ⟨c4, _ | ⟨c5, rest⟩⟩⟩⟩⟩⟩
    · rfl
    · rfl
    · rfl
    · rfl
    · rfl
    · rfl
    · simp only [List.getD] at hbad
      rcases hbad with hk | ht
      · simp at hk
        simp [parseRow, hk]
      · simp at ht
        cases hkind : kindOfString c1 with
        | none => simp [parseRow, hkind]
        | some k => simp [parseRow, hkind, ht]
  refine ⟨h1, ?_⟩
  simp [parseRegistries, List.filterMap_append, List.filterMap_cons, h1]

/-- Witness for C7: a bad-kind row between two well-formed rows. -/
theorem malformedRowSkippedOthersParsedWitness :
    parseRow ["", "NOPE", "X", "t", "2025-09-11T10:00:00", "m"] = none ∧
    parseRegistries ([["", "TASK", "DONE", "t", "2025-09-11T10:00:00", "m", "1"]] ++
        ["", "NOPE", "X", "t", "2025-09-11T10:00:00", "m"] ::
          [["", "TASK", "DONE", "u", "2025-09-11T11:00:00", "m", "2"]]) =
      parseRegistries [["", "TASK", "DONE", "t", "2025-09-11T10:00:00", "m", "1"]] ++
        parseRegistries [["", "TASK", "DONE", "u", "2025-09-11T11:00:00", "m", "2"]] :=
  malformedRowSkippedOthersParsed
    [["", "TASK", "DONE", "t", "2025-09-11T10:00:00", "m", "1"]]
    [["", "TASK", "DONE", "u", "2025-09-11T11:00:00", "m", "2"]]
    ["", "NOPE", "X", "t", "2025-09-11T10:00:00", "m"] (Or.inl rfl)

/-- Claim C8: appending the payload `{"title": "X", "labels": ["a", "b"]}`
through the completion writer's row shape (payload serialized as JSON in the
trailing field) and re-parsing the stored row recovers the title `"X"` and the
labels `["a", "b"]` in the normalized payload. -/
theorem logEventPayloadRoundtrip :
    ((parseRow (accionRow "tsk_x" "2025-09-11T17:40:30"
        [("title", .vstr "X"), ("labels", .vlist [.vstr "a", .vstr "b"])])).map
      (fun reg => dget (normalizeData reg.data) "title")) = some (some (.vstr "X")) ∧
    ((parseRow (accionRow "tsk_x" "2025-09-11T17:40:30"
        [("title", .vstr "X"), ("labels", .vlist [.vstr "a", .vstr "b"])])).map
      (fun reg => dget (normalizeData reg.data) "labels")) =
      some (some (.vlist [.vstr "a", .vstr "b"])) :=
  ⟨rfl, rfl⟩

/-- Claim C9: every `__post_init__` enum coercion keeps enum members, accepts
case-insensitive strings naming a member, and otherwise falls back to the
fixed default (`USER`, `MED`, `PENDING`, `TASK`, `DAILY`) without raising;
a constructed `Recurrent` always has `interval ≥ 1` and only in-range `byday`
entries (Python `bool`s count as in-range ints). -/
theorem entityEnumCoercionAndRecurrentInvariants :
    (∀ m, coerceMode (.isEnum m) = m) ∧
    (∀ v m, modeOfString (pyUpper (pyStr v)) = some m → coerceMode (.raw v) = m) ∧
    (∀ v, modeOfString (pyUpper (pyStr v)) = none → coerceMode (.raw v) = .USER) ∧
    (∀ p, coercePriority (.isEnum p) = p) ∧
    (∀ v p, priorityOfString (pyUpper (pyStr v)) = some p → coercePriority (.raw v) = p) ∧
    (∀ v, priorityOfString (pyUpper (pyStr v)) = none → coercePriority (.raw v) = .MED) ∧
    (∀ s, coerceStatus (.isEnum s) = s) ∧
    (∀ v s, statusOfString (pyUpper (pyStr v)) = some s → coerceStatus (.raw v) = s) ∧
    (∀ v, statusOfString (pyUpper (pyStr v)) = none → coerceStatus (.raw v) = .PENDING) ∧
    (∀ k, coerceKind (.isEnum k) = k) ∧
    (∀ v k, kindOfString (pyUpper (pyStr v)) = some k → coerceKind (.raw v) = k) ∧
    (∀ v, kindOfString (pyUpper (pyStr v)) = none → coerceKind (.raw v) = .TASK) ∧
    (∀ f, coerceFrequency (.isEnum f) = f) ∧
    (∀ v f, frequencyOfString (pyUpper (pyStr v)) = some f → coerceFrequency (.raw v) = f) ∧
    (∀ v, frequencyOfString (pyUpper (pyStr v)) = none → coerceFrequency (.raw v) = .DAILY) ∧
    (∀ i : Int, 1 ≤ recurrentFixInterval i) ∧
    (∀ (l : List Val) (v : Val), v ∈ (bydayClean (some l)).getD [] →
      (∃ n : Int, v = .vint n ∧ 0 ≤ n ∧ n ≤ 6) ∨ (∃ b : Bool, v = .vbool b)) := by
  refine ⟨fun m => rfl, fun v m h => by simp [coerceMode, h],
    fun v h => by simp [coerceMode, h],
    fun p => rfl, fun v p h => by simp [coercePriority, h],
    fun v h => by simp [coercePriority, h],
    fun s => rfl, fun v s h => by simp [coerceStatus, h],
    fun v h => by simp [coerceStatus, h],
    fun k => rfl, fun v k h => by simp [coerceKind, h],
    fun v h => by simp [coerceKind, h],
    fun f => rfl, fun v f h => by simp [coerceFrequency, h],
    fun v h => by simp [coerceFrequency, h],
    fun i => ?_, fun l v hv => ?_⟩
  · rw [recurrentFixInterval]
    split <;> omega
  · simp only [bydayClean, Option.getD_some, List.mem_filter] at hv
    obtain ⟨hmem, hkeep⟩ := hv
    cases v with
    | vint n =>
      left
      refine ⟨n, rfl, ?_, ?_⟩ <;> · simp [bydayKeep] at hkeep; omega
    | vbool b => right; exact ⟨b, rfl⟩
    | vstr s => simp [bydayKeep] at hkeep
    | vnull => simp [bydayKeep] at hkeep
    | vlist xs => simp [bydayKeep] at hkeep
    | vdict d => simp [bydayKeep] at hkeep
    | vdt t => simp [bydayKeep] at hkeep

/-- Witness for C9: a lowercase string is accepted, `None` falls back to the
default, a negative interval is clamped, and a mixed `byday` keeps only
in-range entries. -/
theorem entityEnumCoercionAndRecurrentInvariantsWitness :
    coerceMode (.raw (.vstr "auto")) = Mode.AUTO ∧
    coerceStatus (.raw .vnull) = Status.PENDING ∧
    coerceFrequency (.raw (.vstr "weekly")) = Frequency.WEEKLY ∧
    coerceKind (.raw (.vint 7)) = Kind.TASK ∧
    (1 : Int) ≤ recurrentFixInterval (-5) ∧
    ((∃ n : Int, Val.vint 3 = .vint n ∧ 0 ≤ n ∧ n ≤ 6) ∨
      (∃ b : Bool, Val.vint 3 = .vbool b)) :=
  ⟨entityEnumCoercionAndRecurrentInvariants.2.1 (.vstr "auto") Mode.AUTO rfl,
   entityEnumCoercionAndRecurrentInvariants.2.2.2.2.2.2.2.2.1 .vnull rfl,
   entityEnumCoercionAndRecurrentInvariants.2.2.2.2.2.2.2.2.2.2.2.2.2.1
     (.vstr "weekly") Frequency.WEEKLY rfl,
   entityEnumCoercionAndRecurrentInvariants.2.2.2.2.2.2.2.2.2.2.2.1 (.vint 7) rfl,
   entityEnumCoercionAndRecurrentInvariants.2.2.2.2.2.2.2.2.2.2.2.2.2.2.2.1 (-5),
   entityEnumCoercionAndRecurrentInvariants.2.2.2.2.2.2.2.2.2.2.2.2.2.2.2.2
     [.vint 3, .vint 9, .vstr "x"] (.vint 3)
     (show Val.vint 3 ∈ [Val.vint 3] from List.mem_cons_self _ _)⟩

/-- Claim C10: any id column that is not composed solely of digits — `""`,
`"abc"`, `"-3"` — makes the parser assign id `None` to the event; the row is
never skipped on account of its id column. -/
theorem nonDigitIdColumnGivesNoneId (c0 kind ev tid ts msg : String) (rest : List String)
    (hnd : pyIsdigit c0 = false)
    (hk : (kindOfString kind).isSome = true) (ht : (fromisoTz ts).isSome = true) :
    ∃ r, parseRow (c0 :: kind :: ev :: tid :: ts :: msg :: rest) = some r ∧
      r.id = none := by
  obtain ⟨k, hk'⟩ := Option.isSome_iff_exists.mp hk
  obtain ⟨t, ht'⟩ := Option.isSome_iff_exists.mp ht
  refine ⟨{ kind := k, event := ev, task_id := tid, when := t, message := msg,
            data := match jsonLoads (replaceSQ (String.intercalate " " rest)) with
              | some v => v
              | none => Val.vdict [("raw", .vlist (rest.map .vstr))],
            id := none }, ?_, rfl⟩
  simp [parseRow, hk', ht', hnd]

/-- Witness for C10 at the id columns `"abc"` and `"-3"`. -/
theorem nonDigitIdColumnGivesNoneIdWitness :
    (∃ r, parseRow ["abc", "TASK", "E", "t", "2025-09-11", "m"] = some r ∧
      r.id = none) ∧
    (∃ r, parseRow ["-3", "TASK", "E", "t", "2025-09-11", "m"] = some r ∧
      r.id = none) :=
  ⟨nonDigitIdColumnGivesNoneId "abc" "TASK" "E" "t" "2025-09-11" "m" [] rfl rfl rfl,
   nonDigitIdColumnGivesNoneId "-3" "TASK" "E" "t" "2025-09-11" "m" [] rfl rfl rfl⟩
